import Mathlib

/-
Verification of the SEGM prediction post-processing pipeline
(`src/segm/predictor.py`).

The embedding models the pipeline functions of `predictor.py` directly:
`contour2bbox`, `mask_preprocess`, `get_contours_from_mask`,
`rescale_contours`, `reduce_contours_dims`, `get_contours_from_predictions`
and `SegmPredictor.__call__`.

External collaborators are modelled explicitly:
 - `cv2.findContours`, `cv2.contourArea` and `cv2.boundingRect` are OpenCV
   library primitives; they are modelled from their documented behavior
   (border following with RETR_LIST / CHAIN_APPROX_SIMPLE, the shoelace
   area formula, and the integer bounding rectangle with width and height
   counted in pixels, that is max - min + 1).
 - the neural network plus the inference transform are modelled as an
   abstract per-image function, following the model boundary contract of
   the specification (a batch of images in, a batch of per-class
   probability maps out, handled elementwise).

Machine floats (numpy float64) are modelled by the rationals; all concrete
inputs used below keep the float arithmetic exact, so the model agrees
with the machine arithmetic there.  Coordinates are note-worthy: OpenCV
contours are int32 arrays, and the in-place numpy assignment in
`rescale_contours` casts the float products back to int32, truncating
toward zero.
-/

set_option linter.unusedVariables false
set_option maxRecDepth 8000

/-- A contour point in OpenCV convention: `(x, y)` = (column, row). -/
abbrev Pt : Type := Int × Int

/-- An OpenCV contour: an ordered list of int32 points (array of shape (N,1,2)). -/
abbrev Contour : Type := List Pt

/-- A bounding box `(x_min, y_min, x_max, y_max)` as returned by `contour2bbox`. -/
abbrev BBox : Type := Int × Int × Int × Int

/-- One per-class probability map: a 2-D grid of values (floats modelled by rationals). -/
abbrev ProbMap : Type := List (List ℚ)

/-- Minimum of a list with a default value for the empty list. -/
def listMin {α : Type} [LinearOrder α] (d : α) : List α → α
  | [] => d
  | x :: xs => xs.foldl min x

/-- Maximum of a list with a default value for the empty list. -/
def listMax {α : Type} [LinearOrder α] (d : α) : List α → α
  | [] => d
  | x :: xs => xs.foldl max x

theorem foldl_min_le_init {α : Type} [LinearOrder α] :
    ∀ (xs : List α) (a : α), xs.foldl min a ≤ a := by
  intro xs
  induction xs with
  | nil => intro a; exact le_refl a
  | cons y ys ih =>
    intro a
    exact le_trans (ih (min a y)) (min_le_left a y)

theorem foldl_min_le_mem {α : Type} [LinearOrder α] {x : α} :
    ∀ {xs : List α} (a : α), x ∈ xs → xs.foldl min a ≤ x := by
  intro xs
  induction xs with
  | nil => intro a h; cases h
  | cons y ys ih =>
    intro a h
    rcases List.mem_cons.mp h with h1 | h2
    · subst h1
      exact le_trans (foldl_min_le_init ys (min a x)) (min_le_right a x)
    · exact ih (min a y) h2

theorem listMin_le_mem {α : Type} [LinearOrder α] {x : α} {xs : List α} (d : α)
    (h : x ∈ xs) : listMin d xs ≤ x := by
  cases xs with
  | nil => cases h
  | cons y ys =>
    rcases List.mem_cons.mp h with h1 | h2
    · subst h1; exact foldl_min_le_init ys x
    · exact foldl_min_le_mem y h2

theorem init_le_foldl_max {α : Type} [LinearOrder α] :
    ∀ (xs : List α) (a : α), a ≤ xs.foldl max a := by
  intro xs
  induction xs with
  | nil => intro a; exact le_refl a
  | cons y ys ih =>
    intro a
    exact le_trans (le_max_left a y) (ih (max a y))

theorem mem_le_foldl_max {α : Type} [LinearOrder α] {x : α} :
    ∀ {xs : List α} (a : α), x ∈ xs → x ≤ xs.foldl max a := by
  intro xs
  induction xs with
  | nil => intro a h; cases h
  | cons y ys ih =>
    intro a h
    rcases List.mem_cons.mp h with h1 | h2
    · subst h1
      exact le_trans (le_max_right a x) (init_le_foldl_max ys (max a x))
    · exact ih (max a y) h2

theorem mem_le_listMax {α : Type} [LinearOrder α] {x : α} {xs : List α} (d : α)
    (h : x ∈ xs) : x ≤ listMax d xs := by
  cases xs with
  | nil => cases h
  | cons y ys =>
    rcases List.mem_cons.mp h with h1 | h2
    · subst h1; exact init_le_foldl_max ys x
    · exact mem_le_foldl_max y h2

/-- Truncation of a rational toward zero, the behavior of the C cast from a
floating-point value to int32 that numpy performs when a float64 array is
assigned into an int32 array slice. -/
def truncQ (q : ℚ) : Int := q.num.sign * ((q.num.natAbs / q.den : Nat) : Int)

theorem truncQ_intCast (n : Int) : truncQ (n : ℚ) = n := by
  unfold truncQ
  rw [Rat.num_intCast, Rat.den_intCast]
  simp [Int.natCast_natAbs, Int.sign_mul_abs]

/-! ### Models of the OpenCV primitives used by `predictor.py` -/

/-- Foreground test of a binary mask at column `x`, row `y`; out of bounds is
background.  The mask is a list of rows, as produced by `mask_preprocess`. -/
def fgAt (m : List (List Bool)) (x y : Int) : Bool :=
  if x < 0 || y < 0 then false
  else (m.getD y.toNat []).getD x.toNat false

/-- The eight neighbor offsets in clockwise order (image coordinates, y grows
downward), starting at east. -/
def dir8 (k : Nat) : Int × Int :=
  match k % 8 with
  | 0 => (1, 0)
  | 1 => (1, 1)
  | 2 => (0, 1)
  | 3 => (-1, 1)
  | 4 => (-1, 0)
  | 5 => (-1, -1)
  | 6 => (0, -1)
  | _ => (1, -1)

/-- First foreground 8-neighbor of `c`, scanning clockwise from direction
index `start`; returns the direction index together with the neighbor. -/
def findNext8 (m : List (List Bool)) (c : Pt) (start : Nat) : Option (Nat × Pt) :=
  (List.range 8).findSome? (fun k =>
    let d := (start + k) % 8
    let v := dir8 d
    let n : Pt := (c.1 + v.1, c.2 + v.2)
    if fgAt m n.1 n.2 then some (d, n) else none)

/-- Border-following loop (Moore neighbor tracing, 8-connectivity, clockwise).
`s` is the start pixel, `(d0, n0)` the first move out of `s`; the loop stops,
following the usual stopping rule, when the first move repeats at `s`. -/
def traceAux (m : List (List Bool)) (s : Pt) (d0 : Nat) (n0 : Pt) :
    Nat → Pt → Nat → List Pt → List Pt
  | 0, _, _, acc => acc.reverse
  | Nat.succ fuel, c, start, acc =>
    match findNext8 m c start with
    | none => (c :: acc).reverse
    | some (d, n) =>
      if c = s ∧ d = d0 ∧ n = n0 then acc.reverse
      else traceAux m s d0 n0 fuel n ((d + 6) % 8) (c :: acc)

/-- Outer border of the region containing start pixel `s`, as the sequence of
its border pixels in clockwise order (a single point for an isolated pixel). -/
def traceBorder (m : List (List Bool)) (fuel : Nat) (s : Pt) : List Pt :=
  match findNext8 m s 5 with
  | none => [s]
  | some (d0, n0) => s :: traceAux m s d0 n0 fuel n0 ((d0 + 6) % 8) []

/-- CHAIN_APPROX_SIMPLE: drop the points of a traced border that continue the
incoming direction, keeping only the points where the direction changes. -/
def compress (ps : List Pt) : List Pt :=
  if ps.length ≤ 2 then ps
  else
    (List.range ps.length).filterMap (fun i =>
      let p := ps.getD i (0, 0)
      let q := ps.getD ((i + 1) % ps.length) (0, 0)
      let r := ps.getD ((i + ps.length - 1) % ps.length) (0, 0)
      if (p.1 - r.1, p.2 - r.2) = (q.1 - p.1, q.2 - p.2) then none else some p)

/-- Model of the OpenCV primitive `cv2.findContours(mask, cv2.RETR_LIST,
cv2.CHAIN_APPROX_SIMPLE)`, from its documented behavior: the outer boundary
polygon of every connected foreground region, discovered scanning rows top to
bottom and columns left to right, traced by border following and compressed
by dropping collinear points.  Regions with holes would additionally yield
the hole borders under RETR_LIST; every mask considered in this development
is hole-free, where the model is exact. -/
def findContours (m : List (List Bool)) : List Contour :=
  let H := m.length
  let W := m.foldr (fun r acc => max r.length acc) 0
  let fuel := 4 * H * W + 8
  let positions := (List.range H).flatMap (fun y =>
    (List.range W).map (fun x => (((x : Nat) : Int), ((y : Nat) : Int))))
  let step := fun (st : List Pt × List Contour) (p : Pt) =>
    if fgAt m p.1 p.2 ∧ ¬ fgAt m (p.1 - 1) p.2 ∧ p ∉ st.1 then
      let tr := traceBorder m fuel p
      (st.1 ++ tr, st.2 ++ [compress tr])
    else st
  (positions.foldl step ([], [])).2

/-- Cyclic shoelace sum of a polygon, the signed double area. -/
def shoelace : Contour → Int
  | [] => 0
  | p :: ps => go p (p :: ps)
where
  go (first : Pt) : List Pt → Int
  | [] => 0
  | [q] => q.1 * first.2 - first.1 * q.2
  | q :: r :: rest => (q.1 * r.2 - r.1 * q.2) + go first (r :: rest)

/-- Model of the OpenCV primitive `cv2.contourArea`: the absolute polygon
area by the shoelace (Green) formula, returned as a float (here exact). -/
def contourArea (c : Contour) : ℚ := (((shoelace c).natAbs : Nat) : ℚ) / 2

/-! ### The pipeline functions of `src/segm/predictor.py` -/

/-- `contour2bbox` (predictor.py lines 30-33): `cv2.boundingRect` gives
`x, y, w, h` with `x = min(x)`, `y = min(y)` and, for an integer contour,
`w = max(x) - min(x) + 1`, `h = max(y) - min(y) + 1`; the function returns
`(x, y, x + w, y + h)`.  OpenCV returns a zero rectangle for an empty input. -/
def contour2bbox (c : Contour) : BBox :=
  if c = [] then (0, 0, 0, 0)
  else
    let xs := c.map Prod.fst
    let ys := c.map Prod.snd
    let x := listMin 0 xs
    let y := listMin 0 ys
    let w := listMax 0 xs - x + 1
    let h := listMax 0 ys - y + 1
    (x, y, x + w, y + h)

/-- `mask_preprocess` (predictor.py lines 36-40): `pred > threshold`,
elementwise strict comparison, then moved to cpu and numpy (a no-op here). -/
def mask_preprocess (pred : ProbMap) (threshold : ℚ) : List (List Bool) :=
  pred.map (fun row => row.map (fun p => decide (threshold < p)))

/-- `get_contours_from_mask` (predictor.py lines 161-169): find the contours
of the mask and keep those whose `cv2.contourArea` is at least `min_area`. -/
def get_contours_from_mask (mask : List (List Bool)) (min_area : ℚ) : List Contour :=
  (findContours mask).filter (fun c => decide (min_area ≤ contourArea c))

/-- `rescale_contours` (predictor.py lines 172-182): `y_ratio` is
`image_height / pred_height`, `x_ratio` is `image_width / pred_width`
(float division), and the update `contour[:, :, i] = contour[:, :, i] * scale[i]`
computes the float products and assigns them back into the int32 contour
array, so numpy casts each product back to int32, truncating toward zero. -/
def rescale_contours (contours : List Contour)
    (pred_height pred_width image_height image_width : Nat) : List Contour :=
  contours.map (fun c => c.map (fun p =>
    (truncQ ((p.1 : ℚ) * ((image_width : ℚ) / (pred_width : ℚ))),
     truncQ ((p.2 : ℚ) * ((image_height : ℚ) / (pred_height : ℚ))))))

/-- `reduce_contours_dims` (predictor.py lines 185-190): turn each contour
array into a list of `[int(x), int(y)]` pairs; the points are already int32,
so the cast keeps every value. -/
def reduce_contours_dims (contours : List Contour) : List (List (List Int)) :=
  contours.map (fun c => c.map (fun p => [p.1, p.2]))

/-- Per-class parameters read from the configuration:
`class_params['postprocess']['threshold']` and
`class_params['postprocess']['min_area']`. -/
structure ClassParams where
  threshold : ℚ
  min_area : ℚ
  deriving DecidableEq

/-- `get_contours_from_predictions` (predictor.py lines 43-61): threshold the
probability map, extract and filter contours, rescale them into image space,
compute a bbox from each rescaled contour, then reduce contour dimensions. -/
def get_contours_from_predictions (pred : ProbMap) (params : ClassParams)
    (pred_height pred_width image_height image_width : Nat) :
    List (List (List Int)) × List BBox :=
  let mask := mask_preprocess pred params.threshold
  let contours := get_contours_from_mask mask params.min_area
  let contours2 := rescale_contours contours pred_height pred_width image_height image_width
  let bboxes := contours2.map contour2bbox
  (reduce_contours_dims contours2, bboxes)

/-! ### The `SegmPredictor.__call__` assembler (predictor.py lines 90-158) -/

/-- A raw input image in BGR order; the assembler reads only its shape
(`image.shape[:2]`), kept here as explicit `height` and `width` fields. -/
structure RawImage where
  height : Nat
  width : Nat
  pixels : List (List Nat)
  deriving DecidableEq

/-- One entry of the output `predictions` list:
`{'polygon': ..., 'bbox': ..., 'class_name': ...}`. -/
structure PredictionRecord where
  polygon : List (List Int)
  bbox : BBox
  class_name : String
  deriving DecidableEq

/-- One per-image result dict: `{'image': {'height': ..., 'width': ...},
'predictions': [...]}`. -/
structure ImagePred where
  height : Nat
  width : Nat
  predictions : List PredictionRecord
  deriving DecidableEq

/-- The dynamic type of the python argument of `__call__`: a numpy array,
a list, a tuple, or anything else (tagged with its type name). -/
inductive PyInput where
  | ndarray (img : RawImage)
  | list (imgs : List RawImage)
  | tuple (imgs : List RawImage)
  | other (typeName : String)
  deriving DecidableEq

/-- The failures the entrypoint can surface: the explicit input-kind
exception of lines 120-122, and the IndexError raised by `pred[cls_idx]`
when the model output has fewer channels than configured classes. -/
inductive SegmError where
  | invalidInput (typeName : String)
  | channelIndex (idx : Nat)
  deriving DecidableEq

/-- The value of `__call__`: one bare result dict for a single image input,
a list of result dicts for a list or tuple input. -/
inductive PredOutput where
  | single (p : ImagePred)
  | batch (ps : List ImagePred)
  deriving DecidableEq

/-- The records appended for one class of one image (predictor.py lines
136-152): process the class probability map, then append one record per
`(contour, bbox)` pair, tagged with the class name. -/
def classRecs (pm : ProbMap) (name : String) (params : ClassParams)
    (ph pw ih iw : Nat) : List PredictionRecord :=
  let r := get_contours_from_predictions pm params ph pw ih iw
  (r.1.zip r.2).map (fun cb => { polygon := cb.1, bbox := cb.2, class_name := name })

/-- The inner class loop of `__call__` (lines 134-152):
`for cls_idx, cls_name in enumerate(self.cls2params)`, reading
`pred[cls_idx]` (an IndexError when out of range) and appending the records
of each class in configuration order to the accumulator. -/
def classLoopAux (pred : List ProbMap) (cfg : List (String × ClassParams))
    (idx : Nat) (ph pw ih iw : Nat) (acc : List PredictionRecord) :
    Except SegmError (List PredictionRecord) :=
  match cfg with
  | [] => Except.ok acc
  | (name, params) :: rest =>
    match pred[idx]? with
    | none => Except.error (SegmError.channelIndex idx)
    | some pm =>
      classLoopAux pred rest (idx + 1) ph pw ih iw
        (acc ++ classRecs pm name params ph pw ih iw)

/-- The outer image loop of `__call__` (lines 127-153): iterate the images
in input order, pairing each with its per-class prediction stack, and build
one result dict per image with its native height and width. -/
def imageLoop (net : RawImage → List ProbMap) (cfg : List (String × ClassParams))
    (ph pw : Nat) : List RawImage → Except SegmError (List ImagePred)
  | [] => Except.ok []
  | img :: rest =>
    match classLoopAux (net img) cfg 0 ph pw img.height img.width [] with
    | Except.error e => Except.error e
    | Except.ok recs =>
      match imageLoop net cfg ph pw rest with
      | Except.error e => Except.error e
      | Except.ok ps =>
        Except.ok ({ height := img.height, width := img.width, predictions := recs } :: ps)

/-- `SegmPredictor.__call__` (predictor.py lines 90-158).  The argument `net`
is modelled from the spec: it stands for the external model and transform
boundary (`self.transforms` followed by `predict`), which maps each raw
image to its per-class probability maps at the fixed prediction resolution;
the maps of a batch are obtained elementwise.  A list or tuple input is
processed as is; a bare ndarray is wrapped into `[images]` and the single
result dict `pred_data[0]` is returned unwrapped; any other input raises
the input-kind exception carrying the offending type. -/
def segmCall (net : RawImage → List ProbMap) (cfg : List (String × ClassParams))
    (ph pw : Nat) : PyInput → Except SegmError PredOutput
  | PyInput.list imgs =>
    match imageLoop net cfg ph pw imgs with
    | Except.error e => Except.error e
    | Except.ok ps => Except.ok (PredOutput.batch ps)
  | PyInput.tuple imgs =>
    match imageLoop net cfg ph pw imgs with
    | Except.error e => Except.error e
    | Except.ok ps => Except.ok (PredOutput.batch ps)
  | PyInput.ndarray img =>
    match imageLoop net cfg ph pw [img] with
    | Except.error e => Except.error e
    | Except.ok ps =>
      Except.ok (PredOutput.single
        (ps.headD { height := img.height, width := img.width, predictions := [] }))
  | PyInput.other t => Except.error (SegmError.invalidInput t)

/-- The canonical (loop-free) description of the records of one image:
the concatenation, class by class in configuration order starting at channel
`idx`, of the records of each class. -/
def classRecords (pred : List ProbMap) (cfg : List (String × ClassParams))
    (idx : Nat) (ph pw ih iw : Nat) : List PredictionRecord :=
  match cfg with
  | [] => []
  | (name, params) :: rest =>
    (match pred[idx]? with
     | none => []
     | some pm => classRecs pm name params ph pw ih iw) ++
      classRecords pred rest (idx + 1) ph pw ih iw

/-! ### Definitions following the words of the specification (for the
refinement comparisons of claims C1 and C2) -/

/-- Follows the words of the spec for `BoundingBoxDeriver` (section 4.3):
the minimal axis-aligned rectangle with the tight enclosing extents, so that
`x_max = max(x)` and `y_max = max(y)`. -/
def bboxTight (c : Contour) : BBox :=
  (listMin 0 (c.map Prod.fst), listMin 0 (c.map Prod.snd),
   listMax 0 (c.map Prod.fst), listMax 0 (c.map Prod.snd))

/-- Modelled from the spec (section 4.2): rescaling that keeps every
coordinate at float precision, `x * x_scale` and `y * y_scale` with no
rounding. -/
def rescale_contours_noround (contours : List Contour)
    (pred_height pred_width image_height image_width : Nat) : List (List (ℚ × ℚ)) :=
  contours.map (fun c => c.map (fun p =>
    ((p.1 : ℚ) * ((image_width : ℚ) / (pred_width : ℚ)),
     (p.2 : ℚ) * ((image_height : ℚ) / (pred_height : ℚ)))))

/-- The tight bounding box of a float contour, following the words of the
spec for the deriver applied before integer truncation. -/
def bboxTightQ (c : List (ℚ × ℚ)) : ℚ × ℚ × ℚ × ℚ :=
  (listMin 0 (c.map Prod.fst), listMin 0 (c.map Prod.snd),
   listMax 0 (c.map Prod.fst), listMax 0 (c.map Prod.snd))

/-! ### Structural lemmas about the assembler loops -/

theorem classLoopAux_ok (pred : List ProbMap) (ph pw ih iw : Nat)
    (cfg : List (String × ClassParams)) :
    ∀ (idx : Nat) (acc : List PredictionRecord),
      idx + cfg.length ≤ pred.length →
      classLoopAux pred cfg idx ph pw ih iw acc =
        Except.ok (acc ++ classRecords pred cfg idx ph pw ih iw) := by
  induction cfg with
  | nil =>
    intro idx acc hle
    simp [classLoopAux, classRecords]
  | cons entry rest ih1 =>
    intro idx acc hle
    obtain ⟨name, params⟩ := entry
    have hidx : idx < pred.length := by
      simp only [List.length_cons] at hle
      omega
    cases hpm : pred[idx]? with
    | none =>
      exfalso
      exact absurd (List.getElem?_eq_none_iff.mp hpm) (not_le.mpr hidx)
    | some pm =>
      have hrec := ih1 (idx + 1) (acc ++ classRecs pm name params ph pw ih iw)
        (by simp only [List.length_cons] at hle; omega)
      simp [classLoopAux, classRecords, hpm, hrec, List.append_assoc]

theorem classLoopAux_err (pred : List ProbMap) (ph pw ih iw : Nat)
    (cfg : List (String × ClassParams)) :
    ∀ (idx : Nat) (acc : List PredictionRecord),
      idx ≤ pred.length → pred.length < idx + cfg.length →
      classLoopAux pred cfg idx ph pw ih iw acc =
        Except.error (SegmError.channelIndex pred.length) := by
  induction cfg with
  | nil =>
    intro idx acc h1 h2
    simp only [List.length_nil, Nat.add_zero] at h2
    omega
  | cons entry rest ih1 =>
    intro idx acc h1 h2
    obtain ⟨name, params⟩ := entry
    by_cases hc : idx < pred.length
    · cases hpm : pred[idx]? with
      | none =>
        exact absurd (List.getElem?_eq_none_iff.mp hpm) (not_le.mpr hc)
      | some pm =>
        have hrec := ih1 (idx + 1) (acc ++ classRecs pm name params ph pw ih iw)
          (by omega) (by simp only [List.length_cons] at h2; omega)
        simp [classLoopAux, hpm, hrec]
    · have heq : idx = pred.length := by omega
      subst heq
      have hnone : pred[pred.length]? = none := List.getElem?_eq_none_iff.mpr (le_refl _)
      simp [classLoopAux, hnone]

theorem classLoopAux_no_invalid (pred : List ProbMap) (ph pw ih iw : Nat)
    (cfg : List (String × ClassParams)) :
    ∀ (idx : Nat) (acc : List PredictionRecord) (t : String),
      classLoopAux pred cfg idx ph pw ih iw acc ≠
        Except.error (SegmError.invalidInput t) := by
  induction cfg with
  | nil =>
    intro idx acc t h
    simp [classLoopAux] at h
  | cons entry rest ih1 =>
    intro idx acc t h
    obtain ⟨name, params⟩ := entry
    cases hpm : pred[idx]? with
    | none => simp [classLoopAux, hpm] at h
    | some pm =>
      rw [classLoopAux, hpm] at h
      exact ih1 _ _ t h

theorem imageLoop_ok (net : RawImage → List ProbMap)
    (cfg : List (String × ClassParams)) (ph pw : Nat) :
    ∀ (imgs : List RawImage),
      (∀ img ∈ imgs, cfg.length ≤ (net img).length) →
      imageLoop net cfg ph pw imgs =
        Except.ok (imgs.map (fun img =>
          { height := img.height, width := img.width,
            predictions := classRecords (net img) cfg 0 ph pw img.height img.width })) := by
  intro imgs
  induction imgs with
  | nil => intro hch; simp [imageLoop]
  | cons img rest ih1 =>
    intro hch
    have h1 := classLoopAux_ok (net img) ph pw img.height img.width cfg 0 []
      (by simpa using hch img (List.mem_cons_self img rest))
    have h2 := ih1 (fun i hi => hch i (List.mem_cons_of_mem img hi))
    simp [imageLoop, h1, h2]

theorem imageLoop_no_invalid (net : RawImage → List ProbMap)
    (cfg : List (String × ClassParams)) (ph pw : Nat) :
    ∀ (imgs : List RawImage) (t : String),
      imageLoop net cfg ph pw imgs ≠ Except.error (SegmError.invalidInput t) := by
  intro imgs
  induction imgs with
  | nil => intro t h; simp [imageLoop] at h
  | cons img rest ih1 =>
    intro t h
    rw [imageLoop] at h
    cases hcl : classLoopAux (net img) cfg 0 ph pw img.height img.width [] with
    | error e =>
      rw [hcl] at h
      cases h
      exact classLoopAux_no_invalid (net img) ph pw img.height img.width cfg 0 [] t hcl
    | ok recs =>
      rw [hcl] at h
      cases hil : imageLoop net cfg ph pw rest with
      | error e =>
        rw [hil] at h
        cases h
        exact ih1 t hil
      | ok ps => rw [hil] at h; cases h

theorem classRecs_name (pm : ProbMap) (name : String) (params : ClassParams)
    (ph pw ih iw : Nat) (r : PredictionRecord)
    (hr : r ∈ classRecs pm name params ph pw ih iw) : r.class_name = name := by
  unfold classRecs at hr
  obtain ⟨cb, hcb, rfl⟩ := List.mem_map.mp hr
  rfl

theorem classRecords_names (pred : List ProbMap) (ph pw ih iw : Nat) :
    ∀ (cfg : List (String × ClassParams)) (idx : Nat) (r : PredictionRecord),
      r ∈ classRecords pred cfg idx ph pw ih iw →
      r.class_name ∈ cfg.map Prod.fst := by
  intro cfg
  induction cfg with
  | nil => intro idx r hr; simp [classRecords] at hr
  | cons entry rest ih1 =>
    intro idx r hr
    obtain ⟨name, params⟩ := entry
    rw [classRecords] at hr
    rcases List.mem_append.mp hr with h1 | h2
    · cases hpm : pred[idx]? with
      | none => rw [hpm] at h1; cases h1
      | some pm =>
        rw [hpm] at h1
        have := classRecs_name pm name params ph pw ih iw r h1
        simp [this]
    · have := ih1 (idx + 1) r h2
      simp only [List.map_cons, List.mem_cons]
      exact Or.inr this

/-! ### Concrete inputs used by witnesses and counterexamples -/

/-- A 6 by 6 probability map holding a 4 by 4 square of ones at offset (2,2)
(rows and columns 1 to 4), zero elsewhere. -/
def cexMap : ProbMap :=
  [[0, 0, 0, 0, 0, 0],
   [0, 1, 1, 1, 1, 0],
   [0, 1, 1, 1, 1, 0],
   [0, 1, 1, 1, 1, 0],
   [0, 1, 1, 1, 1, 0],
   [0, 0, 0, 0, 0, 0]]

/-- The binary mask obtained from `cexMap` at threshold one half. -/
def blobMask : List (List Bool) := mask_preprocess cexMap (1 / 2)

/-- The contour of the square blob of `blobMask`, as the model (and OpenCV)
returns it; its enclosed polygonal area is 9. -/
def blobContour : Contour := [(1, 1), (4, 1), (4, 4), (1, 4)]

/-! ### Claim theorems -/

/-- Claim C2, counterexample.  The claim says the bbox of a contour is the
tight rectangle with `x_max = max(x)` and `y_max = max(y)`.  On the one-point
contour `[(0, 0)]`, `cv2.boundingRect` gives width and height 1, so
`contour2bbox` returns `(0, 0, 1, 1)` while the tight rectangle of the claim
is `(0, 0, 0, 0)`. -/
theorem contour2bbox_not_tight :
    contour2bbox [((0 : Int), (0 : Int))] ≠ bboxTight [((0 : Int), (0 : Int))] := by
  decide

/-- Shared helper: on a non-empty contour, `contour2bbox` evaluates to the
minima and the maxima plus one. -/
theorem contour2bbox_minmax_aux (c : Contour) (h : c ≠ []) :
    contour2bbox c =
      (listMin 0 (c.map Prod.fst), listMin 0 (c.map Prod.snd),
       listMax 0 (c.map Prod.fst) + 1, listMax 0 (c.map Prod.snd) + 1) := by
  unfold contour2bbox
  rw [if_neg h]
  have hx : listMin 0 (c.map Prod.fst) + (listMax 0 (c.map Prod.fst) - listMin 0 (c.map Prod.fst) + 1) =
      listMax 0 (c.map Prod.fst) + 1 := by omega
  have hy : listMin 0 (c.map Prod.snd) + (listMax 0 (c.map Prod.snd) - listMin 0 (c.map Prod.snd) + 1) =
      listMax 0 (c.map Prod.snd) + 1 := by omega
  simp only [hx, hy]

/-- Claim C2 (amended): for every non-empty contour, `contour2bbox` returns
`x_min = min(x)`, `y_min = min(y)`, and `x_max = max(x) + 1`,
`y_max = max(y) + 1`, because the width and height of `cv2.boundingRect` on
an integer contour are `max - min + 1` (extents counted in pixels). -/
theorem contour2bbox_eq_minmax (c : Contour) (h : c ≠ []) :
    contour2bbox c =
      (listMin 0 (c.map Prod.fst), listMin 0 (c.map Prod.snd),
       listMax 0 (c.map Prod.fst) + 1, listMax 0 (c.map Prod.snd) + 1) :=
  contour2bbox_minmax_aux c h

/-- Claim C2 (amended), witness at the contour `[(0, 0), (2, 5)]`. -/
theorem contour2bbox_eq_minmax_witness :
    contour2bbox [((0 : Int), (0 : Int)), (2, 5)] = (0, 0, 3, 6) := by
  have h := contour2bbox_eq_minmax [((0 : Int), (0 : Int)), (2, 5)] (by decide)
  exact h.trans (by decide)

/-- Claim C8: every point of a contour lies inside the bounding box returned
by `contour2bbox` (inclusive on all four edges), and the box satisfies
`x_min ≤ x_max` and `y_min ≤ y_max`. -/
theorem contour2bbox_contains (c : Contour) (p : Pt) (hp : p ∈ c) :
    (contour2bbox c).1 ≤ p.1 ∧ p.1 ≤ (contour2bbox c).2.2.1 ∧
    (contour2bbox c).2.1 ≤ p.2 ∧ p.2 ≤ (contour2bbox c).2.2.2 ∧
    (contour2bbox c).1 ≤ (contour2bbox c).2.2.1 ∧
    (contour2bbox c).2.1 ≤ (contour2bbox c).2.2.2 := by
  have hne : c ≠ [] := by
    intro hc
    subst hc
    cases hp
  rw [contour2bbox_minmax_aux c hne]
  have hx1 : listMin 0 (c.map Prod.fst) ≤ p.1 :=
    listMin_le_mem 0 (List.mem_map_of_mem Prod.fst hp)
  have hx2 : p.1 ≤ listMax 0 (c.map Prod.fst) :=
    mem_le_listMax 0 (List.mem_map_of_mem Prod.fst hp)
  have hy1 : listMin 0 (c.map Prod.snd) ≤ p.2 :=
    listMin_le_mem 0 (List.mem_map_of_mem Prod.snd hp)
  have hy2 : p.2 ≤ listMax 0 (c.map Prod.snd) :=
    mem_le_listMax 0 (List.mem_map_of_mem Prod.snd hp)
  refine ⟨?_, ?_, ?_, ?_, ?_, ?_⟩ <;> dsimp only <;> omega

/-- Claim C8, witness at the contour `[(1, 2), (3, 0)]` and its point
`(1, 2)`. -/
theorem contour2bbox_contains_witness :
    (contour2bbox [((1 : Int), (2 : Int)), (3, 0)]).1 ≤ 1 ∧
    (1 : Int) ≤ (contour2bbox [((1 : Int), (2 : Int)), (3, 0)]).2.2.1 ∧
    (contour2bbox [((1 : Int), (2 : Int)), (3, 0)]).2.1 ≤ 2 ∧
    (2 : Int) ≤ (contour2bbox [((1 : Int), (2 : Int)), (3, 0)]).2.2.2 ∧
    (contour2bbox [((1 : Int), (2 : Int)), (3, 0)]).1 ≤
      (contour2bbox [((1 : Int), (2 : Int)), (3, 0)]).2.2.1 ∧
    (contour2bbox [((1 : Int), (2 : Int)), (3, 0)]).2.1 ≤
      (contour2bbox [((1 : Int), (2 : Int)), (3, 0)]).2.2.2 :=
  contour2bbox_contains [((1 : Int), (2 : Int)), (3, 0)] (1, 2) (by decide)

/-- Claim C7: rescaling with unit scale is the identity.  When the image
size equals the (positive) prediction resolution, both scale factors are 1,
the float product equals the integer coordinate exactly, and the cast back
to int32 keeps it, so every contour is returned unchanged. -/
theorem rescale_unit_scale_id (cs : List Contour) (H W : Nat)
    (hH : 0 < H) (hW : 0 < W) : rescale_contours cs H W H W = cs := by
  have hH0 : ((H : ℚ)) ≠ 0 := Nat.cast_ne_zero.mpr (Nat.pos_iff_ne_zero.mp hH)
  have hW0 : ((W : ℚ)) ≠ 0 := Nat.cast_ne_zero.mpr (Nat.pos_iff_ne_zero.mp hW)
  have hp : ∀ p : Pt,
      (truncQ ((p.1 : ℚ) * ((W : ℚ) / (W : ℚ))),
       truncQ ((p.2 : ℚ) * ((H : ℚ) / (H : ℚ)))) = p := by
    intro p
    rw [div_self hW0, div_self hH0, mul_one, mul_one,
      truncQ_intCast, truncQ_intCast]
  unfold rescale_contours
  simp only [hp, List.map_id']

/-- Claim C7, witness: a one-contour list at resolution 3 by 3. -/
theorem rescale_unit_scale_id_witness :
    rescale_contours [[((1 : Int), (2 : Int))]] 3 3 3 3 = [[(1, 2)]] :=
  rescale_unit_scale_id [[((1 : Int), (2 : Int))]] 3 3 (by decide) (by decide)

/-- Claim C10: thresholding is strict.  Pointwise, the binary mask holds
`threshold < p`; in particular a pixel that exactly equals the threshold is
background. -/
theorem mask_preprocess_strict (pred : ProbMap) (t : ℚ) (i j : Nat) :
    ((mask_preprocess pred t)[i]?.bind (fun row => row[j]?)) =
      (pred[i]?.bind (fun row => row[j]?)).map (fun p => decide (t < p)) ∧
    (∀ p : ℚ, (pred[i]?.bind (fun row => row[j]?)) = some p → p = t →
      ((mask_preprocess pred t)[i]?.bind (fun row => row[j]?)) = some false) := by
  have h1 : ((mask_preprocess pred t)[i]?.bind (fun row => row[j]?)) =
      (pred[i]?.bind (fun row => row[j]?)).map (fun p => decide (t < p)) := by
    unfold mask_preprocess
    rw [List.getElem?_map]
    cases hrow : pred[i]? with
    | none => rfl
    | some row =>
      show (row.map (fun p => decide (t < p)))[j]? = (row[j]?).map (fun p => decide (t < p))
      rw [List.getElem?_map]
  refine ⟨h1, ?_⟩
  intro p hp hpt
  rw [h1, hp]
  subst hpt
  simp

/-- Claim C10, witness: a one-pixel map whose value equals the threshold is
classified as background. -/
theorem mask_preprocess_strict_witness :
    ((mask_preprocess [[(1 : ℚ) / 2]] (1 / 2))[0]?.bind (fun row => row[0]?)) =
      some false :=
  (mask_preprocess_strict [[(1 : ℚ) / 2]] (1 / 2) 0 0).2 (1 / 2) rfl rfl

/-- Claim C3: the geometry extractor keeps exactly the contours whose
enclosed polygonal area (`cv2.contourArea`) is at least `min_area`: every
kept contour has area at least `min_area`, every found contour with area at
least `min_area` is kept, and for a mask with a single blob of contour area
`a`, extraction at `a + 1` returns nothing while extraction at `a` returns
exactly that one contour. -/
theorem get_contours_min_area (mask : List (List Bool)) (a : ℚ) :
    (∀ c ∈ get_contours_from_mask mask a, a ≤ contourArea c) ∧
    (∀ c ∈ findContours mask, a ≤ contourArea c → c ∈ get_contours_from_mask mask a) ∧
    (∀ c : Contour, findContours mask = [c] → contourArea c = a →
      get_contours_from_mask mask (a + 1) = [] ∧
      get_contours_from_mask mask a = [c]) := by
  refine ⟨?_, ?_, ?_⟩
  · intro c hc
    have := (List.mem_filter.mp hc).2
    exact of_decide_eq_true this
  · intro c hc harea
    exact List.mem_filter.mpr ⟨hc, decide_eq_true harea⟩
  · intro c hfound harea
    constructor
    · unfold get_contours_from_mask
      rw [hfound]
      have hlt : ¬ (a + 1 ≤ contourArea c) := by rw [harea]; linarith
      simp [List.filter, hlt]
    · unfold get_contours_from_mask
      rw [hfound]
      have hle : a ≤ contourArea c := le_of_eq harea.symm
      simp [List.filter, hle]

/-- Claim C3, witness: the 4 by 4 blob of `blobMask` has one contour of
enclosed area 9; extraction at 10 returns nothing, extraction at 9 returns
exactly that contour. -/
theorem get_contours_min_area_witness :
    get_contours_from_mask blobMask ((9 : ℚ) + 1) = [] ∧
    get_contours_from_mask blobMask 9 = [blobContour] :=
  (get_contours_min_area blobMask 9).2.2 blobContour (by with_unfolding_all decide)
    (by with_unfolding_all decide)

/-- Claim C1, counterexample.  On the 4 by 4 blob of `cexMap` at prediction
resolution 6 by 6 and image size 9 by 9 (scale 3/2, exact in floats), the
pipeline returns the bbox `(1, 1, 7, 7)`: the scaled corner `1 * 3/2 = 1.5`
is truncated to 1 by the int32 assignment inside `rescale_contours`, before
any bbox is taken.  The bbox of the un-truncated scaled contour would have
`x_min = y_min = 3/2`, so the two disagree: rescaling does not keep float
precision until the final reduction step. -/
theorem bbox_not_from_float_contour :
    ((get_contours_from_predictions cexMap ⟨1 / 2, 5⟩ 6 6 9 9).2.map
      (fun b => ((b.1 : ℚ), (b.2.1 : ℚ), (b.2.2.1 : ℚ), (b.2.2.2 : ℚ)))) ≠
      (rescale_contours_noround
        (get_contours_from_mask (mask_preprocess cexMap (1 / 2)) 5) 6 6 9 9).map
        bboxTightQ := by
  with_unfolding_all decide

/-- Claim C1 (amended): integer truncation happens already inside
`rescale_contours` (the int32 in-place assignment), not only at the final
reduction step; each returned bbox is the bbox of the truncated rescaled
contour, which carries exactly the same points as the returned polygon, so
bbox and polygon stay geometrically consistent. -/
theorem bbox_from_truncated_polygon (pred : ProbMap) (params : ClassParams)
    (ph pw ih iw : Nat) :
    (get_contours_from_predictions pred params ph pw ih iw).2 =
      (get_contours_from_predictions pred params ph pw ih iw).1.map
        (fun poly => contour2bbox (poly.map (fun q => (q.getD 0 0, q.getD 1 0)))) := by
  have hback : ∀ c : Contour,
      ((c.map (fun p => ([p.1, p.2] : List Int))).map
        (fun q => (q.getD 0 0, q.getD 1 0))) = c := by
    intro c
    rw [List.map_map]
    exact List.map_id' c
  simp only [get_contours_from_predictions, reduce_contours_dims, List.map_map]
  refine (List.map_congr_left fun c hc => ?_).symm
  show contour2bbox ((c.map (fun p => ([p.1, p.2] : List Int))).map
    (fun q => (q.getD 0 0, q.getD 1 0))) = contour2bbox c
  rw [hback c]

/-- Claim C4: single versus list symmetry.  For every image, calling the
entrypoint on the bare image returns a bare result dict, the very dict that
the call on the one-element list returns as its only element; when one call
fails both fail with the same error. -/
theorem single_list_symmetry (net : RawImage → List ProbMap)
    (cfg : List (String × ClassParams)) (ph pw : Nat) (img : RawImage) :
    (∃ p, segmCall net cfg ph pw (PyInput.ndarray img) =
        Except.ok (PredOutput.single p) ∧
      segmCall net cfg ph pw (PyInput.list [img]) =
        Except.ok (PredOutput.batch [p])) ∨
    (∃ e, segmCall net cfg ph pw (PyInput.ndarray img) = Except.error e ∧
      segmCall net cfg ph pw (PyInput.list [img]) = Except.error e) := by
  cases hcl : classLoopAux (net img) cfg 0 ph pw img.height img.width [] with
  | ok recs =>
    left
    exact ⟨{ height := img.height, width := img.width, predictions := recs },
      by simp [segmCall, imageLoop, hcl],
      by simp [segmCall, imageLoop, hcl]⟩
  | error e =>
    right
    exact ⟨e, by simp [segmCall, imageLoop, hcl], by simp [segmCall, imageLoop, hcl]⟩

/-- Claim C9: the entrypoint raises the input-kind error, carrying the
offending type, exactly on inputs that are neither an ndarray nor a list or
tuple; on the valid input kinds no input-kind error is ever produced. -/
theorem invalid_input_kind (net : RawImage → List ProbMap)
    (cfg : List (String × ClassParams)) (ph pw : Nat) :
    (∀ t, segmCall net cfg ph pw (PyInput.other t) =
      Except.error (SegmError.invalidInput t)) ∧
    (∀ inp : PyInput, (∀ t, inp ≠ PyInput.other t) →
      ∀ t, segmCall net cfg ph pw inp ≠ Except.error (SegmError.invalidInput t)) := by
  refine ⟨fun t => rfl, ?_⟩
  intro inp hvalid t h
  cases inp with
  | other t2 => exact hvalid t2 rfl
  | ndarray img =>
    simp only [segmCall] at h
    cases hil : imageLoop net cfg ph pw [img] with
    | error e =>
      rw [hil] at h
      cases h
      exact imageLoop_no_invalid net cfg ph pw [img] t hil
    | ok ps => rw [hil] at h; cases h
  | list imgs =>
    simp only [segmCall] at h
    cases hil : imageLoop net cfg ph pw imgs with
    | error e =>
      rw [hil] at h
      cases h
      exact imageLoop_no_invalid net cfg ph pw imgs t hil
    | ok ps => rw [hil] at h; cases h
  | tuple imgs =>
    simp only [segmCall] at h
    cases hil : imageLoop net cfg ph pw imgs with
    | error e =>
      rw [hil] at h
      cases h
      exact imageLoop_no_invalid net cfg ph pw imgs t hil
    | ok ps => rw [hil] at h; cases h

/-- Claim C6: the assembler is deterministic and order-preserving.  The
embedding is a pure function, so equal inputs give equal outputs; this
theorem pins the order down: the batch result maps the images in input
order, and the records of each image are the concatenation, class by class
in the configured order, of that class's records. -/
theorem assembler_order (net : RawImage → List ProbMap)
    (cfg : List (String × ClassParams)) (ph pw : Nat) (imgs : List RawImage)
    (hch : ∀ img ∈ imgs, cfg.length ≤ (net img).length) :
    segmCall net cfg ph pw (PyInput.list imgs) =
      Except.ok (PredOutput.batch (imgs.map (fun img =>
        { height := img.height, width := img.width,
          predictions := classRecords (net img) cfg 0 ph pw img.height img.width }))) := by
  have h4 := imageLoop_ok net cfg ph pw imgs hch
  simp [segmCall, h4]

/-- Claim C5 (amended): the assembler fails with the channel IndexError
exactly when the model output has fewer channels than configured classes
(reading the first missing channel); with at least as many channels as
classes the call succeeds, the extra channels are silently ignored, and the
class set is never truncated or padded: every record carries a configured
class name. -/
theorem channel_mismatch (net : RawImage → List ProbMap)
    (cfg : List (String × ClassParams)) (ph pw : Nat) (img : RawImage)
    (imgs : List RawImage) :
    ((net img).length < cfg.length →
      segmCall net cfg ph pw (PyInput.list (img :: imgs)) =
        Except.error (SegmError.channelIndex (net img).length)) ∧
    ((∀ i ∈ img :: imgs, cfg.length ≤ (net i).length) →
      ∃ ps, segmCall net cfg ph pw (PyInput.list (img :: imgs)) =
          Except.ok (PredOutput.batch ps) ∧
        ps.length = imgs.length + 1 ∧
        ∀ p ∈ ps, ∀ r ∈ p.predictions, r.class_name ∈ cfg.map Prod.fst) := by
  constructor
  · intro hlt
    have herr := classLoopAux_err (net img) ph pw img.height img.width cfg 0 []
      (Nat.zero_le _) (by omega)
    simp [segmCall, imageLoop, herr]
  · intro hch
    have h4 := imageLoop_ok net cfg ph pw (img :: imgs) hch
    refine ⟨(img :: imgs).map (fun i =>
      { height := i.height, width := i.width,
        predictions := classRecords (net i) cfg 0 ph pw i.height i.width }),
      by simp [segmCall, h4], by simp, ?_⟩
    intro p hp r hr
    obtain ⟨i, hi, rfl⟩ := List.mem_map.mp hp
    exact classRecords_names (net i) ph pw i.height i.width cfg 0 r hr

/-- A small raw image of shape 2 by 2 (the pixel payload is irrelevant to
the assembler, which reads only the shape). -/
def imgW : RawImage := { height := 2, width := 2, pixels := [] }

/-- A raw image of shape 9 by 9. -/
def img99 : RawImage := { height := 9, width := 9, pixels := [] }

/-- An all-zero 2 by 2 probability map. -/
def zeroMap : ProbMap := [[0, 0], [0, 0]]

/-- A model producing two output channels for every image. -/
def netTwo : RawImage → List ProbMap := fun _ => [zeroMap, zeroMap]

/-- A model producing one output channel for every image. -/
def netOne : RawImage → List ProbMap := fun _ => [zeroMap]

/-- A model producing the blob probability map as its single channel. -/
def netBlob : RawImage → List ProbMap := fun _ => [cexMap]

/-- A configuration with a single class. -/
def cfgOne : List (String × ClassParams) := [("field", { threshold := 1 / 2, min_area := 5 })]

/-- A configuration with two classes. -/
def cfgTwo : List (String × ClassParams) :=
  [("field", { threshold := 1 / 2, min_area := 5 }),
   ("table", { threshold := 1 / 2, min_area := 5 })]

/-- Claim C5, counterexample.  A model output with two channels against a
one-class configuration is a shape mismatch, yet the call succeeds (the
extra channel is silently ignored) instead of failing with a fatal error. -/
theorem channel_mismatch_cex :
    (netTwo imgW).length ≠ cfgOne.length ∧
    segmCall netTwo cfgOne 2 2 (PyInput.list [imgW]) =
      Except.ok (PredOutput.batch [{ height := 2, width := 2, predictions := [] }]) := by
  constructor
  · decide
  · with_unfolding_all rfl

/-- Claim C5 (amended), witness: one channel against two configured classes
fails with the IndexError at channel 1. -/
theorem channel_mismatch_witness :
    segmCall netOne cfgTwo 2 2 (PyInput.list [imgW]) =
      Except.error (SegmError.channelIndex 1) :=
  (channel_mismatch netOne cfgTwo 2 2 imgW []).1 (by decide)

/-- Claim C6, witness: the blob model on one 9 by 9 image, with the order
characterization instantiated and the channel hypothesis discharged. -/
theorem assembler_order_witness :
    segmCall netBlob cfgOne 6 6 (PyInput.list [img99]) =
      Except.ok (PredOutput.batch ([img99].map (fun img =>
        { height := img.height, width := img.width,
          predictions := classRecords (netBlob img) cfgOne 0 6 6 img.height img.width }))) :=
  assembler_order netBlob cfgOne 6 6 [img99]
    (by intro i hi; rw [List.mem_singleton] at hi; subst hi; decide)

/-- Claim C9, witness: a string input raises the input-kind error naming the
offending type, and an ndarray input does not. -/
theorem invalid_input_kind_witness :
    segmCall netOne cfgOne 2 2 (PyInput.other "str") =
      Except.error (SegmError.invalidInput "str") ∧
    segmCall netOne cfgOne 2 2 (PyInput.ndarray imgW) ≠
      Except.error (SegmError.invalidInput "str") :=
  ⟨(invalid_input_kind netOne cfgOne 2 2).1 "str",
   (invalid_input_kind netOne cfgOne 2 2).2 (PyInput.ndarray imgW)
     (fun t h => by cases h) "str"⟩
